import Mathlib

/-!
Verification development for the FASTQ read-preprocessing core of the
st_pipeline repository (stpipeline/common/fastq_utils.py).

The Python source is shallowly embedded: strings become `List Char`,
Python 2 integer arithmetic becomes `Int` (or `Nat` where values are
known non-negative; Python 2 floor division on non-negative ints is `Nat`
division), fallible code (Python exceptions such as ZeroDivisionError and
IndexError) becomes `Except String`.  The external collaborator
`removeAdaptor` (stpipeline.common.adaptors, not part of the analyzed
source) is kept abstract as a function parameter.
-/

/-- Strings of the Python source are modelled as lists of characters. -/
abbrev Str := List Char

/-- A fastq record triple (name, sequence, quality) as handled by the
reformatting loop, where the quality is always present. -/
structure Record where
  name : Str
  seq : Str
  qual : Str
deriving Repr, DecidableEq

/-- Equality of `Except` results is decidable when both components are,
so concrete runs of the embedded fallible code can be evaluated. -/
instance {ε α : Type} [DecidableEq ε] [DecidableEq α] :
    DecidableEq (Except ε α) := fun a b =>
  match a, b with
  | Except.error e, Except.error f =>
    if h : e = f then isTrue (by rw [h])
    else isFalse (fun hc => h (Except.error.inj hc))
  | Except.error _, Except.ok _ => isFalse (fun hc => Except.noConfusion hc)
  | Except.ok _, Except.error _ => isFalse (fun hc => Except.noConfusion hc)
  | Except.ok a, Except.ok b =>
    if h : a = b then isTrue (by rw [h])
    else isFalse (fun hc => h (Except.ok.inj hc))

/-- Python slice `s[a:b]` for non-negative bounds: drop `a`, then take
`b - a` (empty when `b ≤ a`, clamped at the end of the string). -/
def pySlice (s : Str) (a b : Nat) : Str := (s.drop a).take (b - a)

/-- Python `str.split()` whitespace test (space, tab, newline, CR). -/
def isSpacePy (c : Char) : Bool := c = ' ' || c = '\t' || c = '\n' || c = '\r'

/-- Single pass of Python `str.split()`: `tok` accumulates the current
token in reverse; whitespace closes the token, empty tokens are
discarded. -/
def pySplitWSGo : Str → Str → List Str
  | [], tok => if tok = [] then [] else [tok.reverse]
  | c :: rest, tok =>
    if isSpacePy c then
      if tok = [] then pySplitWSGo rest []
      else tok.reverse :: pySplitWSGo rest []
    else pySplitWSGo rest (c :: tok)

/-- Python `str.split()` with no argument: split on runs of whitespace,
discarding empty tokens. -/
def pySplitWS (s : Str) : List Str := pySplitWSGo s []

/-- Source `getFake`: a placeholder record from a header and a length,
with sequence of sentinel bases and a constant quality symbol. -/
def getFake (header : Str) (num_bases : Nat) : Record :=
  ⟨header, List.replicate num_bases 'N', List.replicate num_bases 'B'⟩

/-- Loop of source `quality_trim_index`: processes the reversed quality
list (right-to-left scan); `i` is one more than the index of the current
head character in the original string, `s` the running sum, `max_qual`
the best sum seen so far and `max_i` its index. -/
def qtiGo (cutoff : Int) (base : Nat) : List Char → Nat → Int → Int → Nat → Nat
  | [], _, _, _, max_i => max_i
  | c :: rest, i, s, max_qual, max_i =>
    let q : Int := (c.toNat : Int) - (base : Int)
    let s' := s + (cutoff - q)
    if s' < 0 then max_i
    else if s' > max_qual then qtiGo cutoff base rest (i - 1) s' s' (i - 1)
    else qtiGo cutoff base rest (i - 1) s' max_qual max_i

/-- Source `quality_trim_index` (cutadapt/BWA snippet): position at which
to trim a low-quality 3' end from the quality string. -/
def quality_trim_index (qualities : Str) (cutoff : Int) (base : Nat) : Nat :=
  qtiGo cutoff base qualities.reverse qualities.length 0 0 qualities.length

/-- Source `trim_quality`: BWA-like quality trimming of a record.  The
arithmetic on `num_bases_trimmed` and `nbases` is Python `int`
arithmetic, hence `Int` here.  Returns `none` when the read is to be
discarded. -/
def trim_quality (record : Record) (trim_distance : Nat) (min_qual : Int)
    (min_length : Nat) (qual64 : Bool) : Option Record :=
  let qscore := record.qual.drop trim_distance
  let sequence := record.seq.drop trim_distance
  let num_bases_trimmed : Int := (sequence.length : Int)
  let phred : Nat := if qual64 then 64 else 33
  let cut_index : Nat := quality_trim_index qscore min_qual phred
  let nbases : Int := num_bases_trimmed - (cut_index : Int)
  if num_bases_trimmed - nbases ≥ (min_length : Int) then
    some ⟨record.name,
          record.seq.take (num_bases_trimmed - nbases).toNat,
          record.qual.take (num_bases_trimmed - nbases).toNat⟩
  else none

/-- Configuration of source `reformatRawReads` (the keyword parameters of
the function, source defaults noted in the doc of each claim). -/
structure RRConfig where
  barcode_start : Nat
  barcode_length : Nat
  filter_AT_content : Nat
  molecular_barcodes : Bool
  mc_start : Nat
  mc_end : Nat
  trim_fw : Nat
  trim_rw : Nat
  min_qual : Int
  min_length : Nat
  polyA_min_distance : Nat
  polyT_min_distance : Nat
  polyG_min_distance : Nat
  polyC_min_distance : Nat
  qual64 : Bool
  keep_discarded_files : Bool
deriving Repr, DecidableEq

/-- Accumulated effects of the `reformatRawReads` loop: the records sent
to the kept forward/reverse sinks, the records sent to the optional
discarded sinks, and the counters. -/
structure RState where
  keptFw : List Record
  keptRv : List Record
  discFw : List Record
  discRv : List Record
  total_reads : Nat
  dropped_fw : Nat
  dropped_rw : Nat
deriving Repr, DecidableEq

/-- The empty initial state of the loop. -/
def initRState : RState := ⟨[], [], [], [], 0, 0, 0⟩

/-- The pre-trim length / A-T-content filter of `reformatRawReads`
(source lines 346-351, one side).  Mirrors the Python expression
`(num_bases - trim) < min_length or
 ((seq.count("A") + seq.count("T")) / num_bases) * 100 >= filter_AT`:
the subtraction is Python `int` subtraction (may go negative), the
division is Python 2 floor division of non-negative ints (`Nat`
division), and evaluating the division with `num_bases == 0` raises
`ZeroDivisionError` (the `or` short-circuits, so the division is reached
only when the length test is false).  Returns the surviving record, or
`none` for a discarded one. -/
def preFilter (rec : Record) (trim : Nat) (min_length : Nat)
    (filter_AT_content : Nat) : Except String (Option Record) :=
  let num_bases := rec.seq.length
  if ((num_bases : Int) - (trim : Int)) < (min_length : Int) then Except.ok none
  else if num_bases = 0 then Except.error ("ZeroDivisionError")
  else if ((rec.seq.count 'A' + rec.seq.count 'T') / num_bases) * 100 ≥
      filter_AT_content then Except.ok none
  else Except.ok (some rec)

/-- The fake adaptor patterns built at source lines 306-309 together with
the guards of the four removal blocks (lines 354-371), in source order
A, T, G, C.  The source builds `adaptorC` from `polyG_min_distance`
(line 309), which this definition reproduces verbatim. -/
def adaptorPatterns (polyA polyT polyG polyC : Nat) : List Str :=
  (if polyA > 0 then [List.replicate polyA 'A'] else []) ++
  (if polyT > 0 then [List.replicate polyT 'T'] else []) ++
  (if polyG > 0 then [List.replicate polyG 'G'] else []) ++
  (if polyC > 0 then [List.replicate polyG 'C'] else [])

/-- Type of the external collaborator `removeAdaptor`
(stpipeline.common.adaptors): takes the possibly-already-discarded
record, the adaptor pattern, the trim offset and the end marker
(always the string "5" at these call sites). -/
abbrev AdaptorFn := Option Record → Str → Nat → Str → Option Record

/-- The constant end-marker argument of every `removeAdaptor` call in
`reformatRawReads`. -/
def fiveEndMarker : Str := ("5").toList

/-- Application of the enabled adaptor-removal passes to one side, in
the fixed source order. -/
def applyAdaptors (ra : AdaptorFn) (pats : List Str) (trim : Nat)
    (r : Option Record) : Option Record :=
  pats.foldl (fun acc pat => ra acc pat trim fiveEndMarker) r

/-- The barcode fragment extracted from the forward sequence at source
line 339: the Python slice `sequence_fw[barcode_start:barcode_length]`
(note: the second slice argument is the STOP index in Python). -/
def toAppendSlice (s : Str) (barcode_start barcode_length : Nat) : Str :=
  pySlice s barcode_start barcode_length

/-- The run-level molecular-barcode flag `iscorrect_mc` computed before
the loop (source lines 311-315). -/
def iscorrectMC (cfg : RRConfig) : Bool :=
  cfg.molecular_barcodes &&
  !(cfg.mc_start < cfg.barcode_start + cfg.barcode_length ||
    cfg.mc_end < cfg.barcode_start + cfg.barcode_length)

/-- One iteration of the `reformatRawReads` loop body (source lines
317-405) on a pair of records.  `ra` is the abstract `removeAdaptor`
collaborator.  Python exceptions (IndexError from `header.split()[0]` on
a token-free header, ZeroDivisionError from the A-T filter) become
`Except.error`; the name-mismatch warning at line 332-333 has no effect
on the computation and the `izip` loop never yields `None`, so the dead
check at line 319 is omitted. -/
def processPair (cfg : RRConfig) (ra : AdaptorFn) (mc : Bool) (st : RState)
    (p : Record × Record) : Except String RState :=
  let line1 := p.1
  let line2 := p.2
  let header_fw := line1.name
  let header_rv := line2.name
  let sequence_fw := line1.seq
  let num_bases_fw := sequence_fw.length
  let sequence_rv := line2.seq
  let num_bases_rv := sequence_rv.length
  let quality_fw := line1.qual
  let quality_rv := line2.qual
  match pySplitWS header_fw, pySplitWS header_rv with
  | [], _ => Except.error ("IndexError")
  | _ :: _, [] => Except.error ("IndexError")
  | _ :: _, _ :: _ =>
    let to_append_sequence :=
      toAppendSlice sequence_fw cfg.barcode_start cfg.barcode_length ++
      (if mc then pySlice sequence_fw cfg.mc_start cfg.mc_end else [])
    let to_append_sequence_quality :=
      toAppendSlice quality_fw cfg.barcode_start cfg.barcode_length ++
      (if mc then pySlice quality_fw cfg.mc_start cfg.mc_end else [])
    match preFilter line1 cfg.trim_fw cfg.min_length cfg.filter_AT_content with
    | Except.error e => Except.error e
    | Except.ok l1 =>
      match preFilter line2 cfg.trim_rw cfg.min_length cfg.filter_AT_content with
      | Except.error e => Except.error e
      | Except.ok l2 =>
        let pats := adaptorPatterns cfg.polyA_min_distance cfg.polyT_min_distance
          cfg.polyG_min_distance cfg.polyC_min_distance
        let l1 := applyAdaptors ra pats cfg.trim_fw l1
        let l2 := applyAdaptors ra pats cfg.trim_rw l2
        let line2_trimmed := match l2 with
          | some r => trim_quality r cfg.trim_rw cfg.min_qual cfg.min_length cfg.qual64
          | none => none
        let line1_trimmed := match l1 with
          | some r => trim_quality r cfg.trim_fw cfg.min_qual cfg.min_length cfg.qual64
          | none => none
        let outFw := match line1_trimmed with
          | some r => (r, 0, ([] : List Record))
          | none => (getFake header_fw num_bases_fw, 1,
              if cfg.keep_discarded_files then [⟨header_fw, sequence_fw, quality_fw⟩] else [])
        let outRv := match line2_trimmed with
          | some r => ((⟨r.name, to_append_sequence ++ r.seq,
              to_append_sequence_quality ++ r.qual⟩ : Record), 0, ([] : List Record))
          | none => (getFake header_rv num_bases_rv, 1,
              if cfg.keep_discarded_files then [⟨header_rv, sequence_rv, quality_rv⟩] else [])
        Except.ok ⟨st.keptFw ++ [outFw.1], st.keptRv ++ [outRv.1],
          st.discFw ++ outFw.2.2, st.discRv ++ outRv.2.2,
          st.total_reads + 1, st.dropped_fw + outFw.2.1, st.dropped_rw + outRv.2.1⟩

/-- The `reformatRawReads` loop over the zipped record streams (`izip`
truncates to the shorter stream). -/
def reformatGo (cfg : RRConfig) (ra : AdaptorFn) (mc : Bool) :
    RState → List (Record × Record) → Except String RState
  | st, [] => Except.ok st
  | st, p :: ps =>
    match processPair cfg ra mc st p with
    | Except.error e => Except.error e
    | Except.ok st' => reformatGo cfg ra mc st' ps

/-- Source `reformatRawReads` restricted to its record-stream
transformation: the two input files are given as the record lists their
parsing yields, the sinks and counters are collected in the returned
state. -/
def reformatRawReads (cfg : RRConfig) (ra : AdaptorFn)
    (fwRecords rwRecords : List Record) : Except String RState :=
  reformatGo cfg ra (iscorrectMC cfg) initRState (fwRecords.zip rwRecords)

/-- One side of the `filter_rRNA_reads` loop body (source lines
175-189): the whitespace-delimited second header token is the STAR flag;
`"00"` passes the record through unmodified, anything else substitutes a
same-length placeholder and counts one contaminated read.  Accessing
token `[1]` of a header with fewer than two tokens raises `IndexError`.
Returns the record written to the kept sink and the counter increment. -/
def rRNASide (rec : Record) : Except String (Record × Nat) :=
  match pySplitWS rec.name with
  | [] => Except.error ("IndexError")
  | [_] => Except.error ("IndexError")
  | _ :: flag :: _ =>
    if flag = ("00").toList then Except.ok (rec, 0)
    else Except.ok (getFake rec.name rec.seq.length, 1)

/-- One iteration of the `filter_rRNA_reads` loop on a pair: forward
side first, then reverse side, as in the source. -/
def processRRNAPair (p : Record × Record) :
    Except String ((Record × Record) × (Nat × Nat)) :=
  match rRNASide p.1 with
  | Except.error e => Except.error e
  | Except.ok o1 =>
    match rRNASide p.2 with
    | Except.error e => Except.error e
    | Except.ok o2 => Except.ok ((o1.1, o2.1), (o1.2, o2.2))

/-- The `filter_rRNA_reads` loop over the zipped record streams,
collecting the kept outputs and the two contamination counters. -/
def filter_rRNA_reads : List (Record × Record) →
    Except String (List Record × List Record × Nat × Nat)
  | [] => Except.ok ([], [], 0, 0)
  | p :: ps =>
    match processRRNAPair p with
    | Except.error e => Except.error e
    | Except.ok (o, c) =>
      match filter_rRNA_reads ps with
      | Except.error e => Except.error e
      | Except.ok (fws, rvs, c1, c2) =>
        Except.ok (o.1 :: fws, o.2 :: rvs, c.1 + c1, c.2 + c2)

/-- A record as produced by the source parser `readfq`: the quality is
absent for fasta-shaped records. -/
structure FqRec where
  name : Str
  seq : Str
  qual : Option Str
deriving Repr, DecidableEq

/-- Splitting a character stream into physical lines, each line keeping
its terminating newline (the final line may lack one), exactly as Python
file iteration yields lines. -/
def splitLinesKeep : Str → List Str
  | [] => []
  | c :: r =>
    match splitLinesKeep r with
    | [] => [[c]]
    | l :: ls => if c = '\n' then ['\n'] :: l :: ls else (c :: l) :: ls

/-- Does a line start with one of the given framing characters?  This is
the source test `l[0] in chars`; physical lines are never empty (each
holds at least its newline), the `[]` case is unreachable. -/
def headIn (l : Str) (chars : List Char) : Bool :=
  match l with
  | [] => false
  | c :: _ => c ∈ chars

/-- The header-search loop of `readfq` (source lines 98-101): skip lines
until one starts with `>` or `@`, returning that line minus its newline
(`l[:-1]`) and the remaining lines. -/
def findHeader : List Str → Option (Str × List Str)
  | [] => none
  | l :: ls =>
    if headIn l ['>', '@'] then some (l.dropLast, ls) else findHeader ls

/-- The sequence-reading loop of `readfq` (source lines 105-109):
collect line bodies until a line starting with `@`, `+` or `>`; returns
the collected fragments, the buffered framing line (minus newline) if
one was found, and the remaining lines. -/
def readSeqLines : List Str → (List Str × Option Str × List Str)
  | [] => ([], none, [])
  | l :: ls =>
    if headIn l ['@', '+', '>'] then ([], some l.dropLast, ls)
    else
      match readSeqLines ls with
      | (ss, last, rest) => (l.dropLast :: ss, last, rest)

/-- The quality-reading loop of `readfq` (source lines 115-121):
accumulate line bodies and their lengths until the accumulated length
reaches the sequence length; `none` when the stream ends first. -/
def readQualLines (seqLen : Nat) : List Str → List Str → Nat →
    (Option Str × List Str)
  | [], _, _ => (none, [])
  | l :: ls, acc, accLen =>
    let acc' := acc ++ [l.dropLast]
    let accLen' := accLen + (l.length - 1)
    if accLen' ≥ seqLen then (some acc'.flatten, ls)
    else readQualLines seqLen ls acc' accLen'

/-- The main `readfq` loop (source lines 95-124), fuelled.  `buffered`
is the `last` variable: a framing line carried over from the previous
record.  Each unit of fuel allows one record to be produced; the local
function parses one record given the buffered header line `last` (minus
newline) and continues the loop. -/
def readfqGo : Nat → Option Str → List Str → List FqRec
  | 0, _, _ => []
  | fuel + 1, buffered, lines =>
    let parseOne : Str → List Str → List FqRec := fun last rest₀ =>
      let name := last.drop 1
      match readSeqLines rest₀ with
      | (seqs, lastOpt, rest) =>
        match lastOpt with
        | none => [⟨name, seqs.flatten, none⟩]
        | some l =>
          if l.head? = some '+' then
            let seq := seqs.flatten
            match readQualLines seq.length rest [] 0 with
            | (some qual, rest') =>
                ⟨name, seq, some qual⟩ :: readfqGo fuel none rest'
            | (none, _) => [⟨name, seq, none⟩]
          else ⟨name, seqs.flatten, none⟩ :: readfqGo fuel (some l) rest
    match buffered with
    | some last => parseOne last lines
    | none =>
      match findHeader lines with
      | none => []
      | some (last, rest) => parseOne last rest

/-- Source `readfq` applied to a character stream: one unit of fuel per
input line is always enough, as every yielded record consumes at least
one line. -/
def readfq (text : Str) : List FqRec :=
  let lines := splitLinesKeep text
  readfqGo (lines.length + 1) none lines

/-- Source `writefq` serialization of one record: the format string
`@{header}\n{sequence}\n+\n{quality}\n`. -/
def writefq (rec : Record) : Str :=
  ('@' :: rec.name) ++ ['\n'] ++ rec.seq ++ ['\n'] ++ ['+'] ++ ['\n'] ++
  rec.qual ++ ['\n']

/-- One step of the cutoff-sum scan as the specification words it: a
state (running sum, tracked extremal sum, its index, stopped flag) and
an input (base character, its index in the original string).  This
variant tracks the MAXIMAL sum, updating only on strict improvement. -/
def qtiScanStepMax (cutoff : Int) (base : Nat)
    (st : Int × Int × Nat × Bool) (ci : Char × Nat) : Int × Int × Nat × Bool :=
  match st with
  | (s, best, besti, stopped) =>
    if stopped then (s, best, besti, stopped)
    else
      let s' := s + (cutoff - (((ci.1.toNat : Int)) - (base : Int)))
      if s' < 0 then (s', best, besti, true)
      else if s' > best then (s', s', ci.2, false)
      else (s', best, besti, false)

/-- Modelled from the spec (amended: maximal in place of minimal): scan
the bases right-to-left, accumulate `cutoff - phred(base)` into a
running sum, stop the instant the sum goes negative, and track the
maximal sum seen with its index as the provisional cut point, updating
only on strict improvement. -/
def quality_trim_index_specMax (qs : Str) (cutoff : Int) (base : Nat) : Nat :=
  let scan := qs.reverse.zip (List.range qs.length).reverse
  (scan.foldl (qtiScanStepMax cutoff base) (0, 0, qs.length, false)).2.2.1

/-- One step of the cutoff-sum scan tracking the MINIMAL sum, as the
specification literally words it ("track the minimal s seen and its
index"), updating only on strict improvement. -/
def qtiScanStepMin (cutoff : Int) (base : Nat)
    (st : Int × Int × Nat × Bool) (ci : Char × Nat) : Int × Int × Nat × Bool :=
  match st with
  | (s, best, besti, stopped) =>
    if stopped then (s, best, besti, stopped)
    else
      let s' := s + (cutoff - (((ci.1.toNat : Int)) - (base : Int)))
      if s' < 0 then (s', best, besti, true)
      else if s' < best then (s', s', ci.2, false)
      else (s', best, besti, false)

/-- Modelled from the spec, word for word: scan the bases right-to-left,
accumulate `cutoff - phred(base)`, stop the instant the sum goes
negative, and track the MINIMAL sum seen with its index as the
provisional cut point. -/
def quality_trim_index_specMin (qs : Str) (cutoff : Int) (base : Nat) : Nat :=
  let scan := qs.reverse.zip (List.range qs.length).reverse
  (scan.foldl (qtiScanStepMin cutoff base) (0, 0, qs.length, false)).2.2.1

/-- C3: the claim says a 20-base sequence with 19 A/T bases is discarded
under `max_AT_content_percent = 90` (19/20 = 95% >= 90%).  The code
divides with Python 2 integer division, so `(19 / 20) * 100 = 0 < 90`
and the record is KEPT: the pre-trim A/T filter of `reformatRawReads`
(embedded as `preFilter`) passes the record through at trim offset 0 and
`min_length` 1. -/
theorem C3_nineteen_of_twenty_AT_kept :
    preFilter ⟨("r1").toList, ("AAAAAAAAAAAAAAAAAAAC").toList,
        ("IIIIIIIIIIIIIIIIIIII").toList⟩ 0 1 90
      = Except.ok (some ⟨("r1").toList, ("AAAAAAAAAAAAAAAAAAAC").toList,
        ("IIIIIIIIIIIIIIIIIIII").toList⟩) := by decide

/-- C5: the claim says the barcode fragment is the slice
`[barcode_start, barcode_start + barcode_length)` of the forward
sequence for every value of the two parameters.  The code slices
`sequence_fw[barcode_start:barcode_length]`, using `barcode_length` as
the STOP index: at `barcode_start = 2`, `barcode_length = 4` on
`"ACGTACGT"` the code extracts the 2-character fragment `"GT"`, not the
4-character slice `[2, 6)` = `"GTAC"`. -/
theorem C5_slice_stop_is_barcode_length :
    toAppendSlice (("ACGTACGT").toList) 2 4 = ("GT").toList ∧
    toAppendSlice (("ACGTACGT").toList) 2 4 ≠
      (((("ACGTACGT").toList).drop 2).take 4) := by decide

/-- C7: the claim says each enabled adaptor kind is applied with a
homopolymer of that kind's own configured minimum length.  The code
builds `adaptorC` from `polyG_min_distance` (source line 309): with
`polyG_min_distance = 5` and `polyC_min_distance = 3` the invoked
patterns are `"GGGGG"` and `"CCCCC"`; the pattern `"CCC"` the claim
requires is never passed. -/
theorem C7_adaptorC_built_from_polyG :
    adaptorPatterns 0 0 5 3 = [List.replicate 5 'G', List.replicate 5 'C'] ∧
    ¬ (List.replicate 3 'C') ∈ adaptorPatterns 0 0 5 3 := by decide

/-- C2: the claim says unequal-length input streams abort the run with a
raised runtime error.  The code iterates with `izip`, which silently
truncates to the shorter stream (the `None` check at source line 319 is
unreachable): on a 2-record forward stream and a 1-record reverse
stream, `reformatRawReads` completes normally, processes exactly one
pair, and reports success. -/
theorem C2_unequal_streams_truncate_silently :
    reformatRawReads ⟨0, 2, 90, false, 18, 27, 0, 0, 20, 1, 0, 0, 0, 0, false, false⟩
      (fun r _ _ _ => r)
      [⟨("r1").toList, ("ACGT").toList, ("IIII").toList⟩,
       ⟨("r2").toList, ("ACGT").toList, ("IIII").toList⟩]
      [⟨("r1").toList, ("ACGT").toList, ("IIII").toList⟩]
      = Except.ok ⟨[⟨("r1").toList, ("ACGT").toList, ("IIII").toList⟩],
          [⟨("r1").toList, ("ACACGT").toList, ("IIIIII").toList⟩],
          [], [], 1, 0, 0⟩ := by decide

/-- C6 counterexample: the claim says the division-by-zero branch of the
A/T filter is unreachable for empty-sequence records.  With
`trim_offset = 0` and `min_length = 0` the length test is false and the
division by the zero sequence length IS evaluated: the filter raises
ZeroDivisionError. -/
theorem C6_cex_empty_seq_zero_division :
    preFilter ⟨("r").toList, [], []⟩ 0 0 90
      = Except.error ("ZeroDivisionError") := by decide

/-- C6 (amended): for every record with an empty sequence, whenever the
side's trim offset and `min_length` are not both zero (in particular at
the source defaults 42/5 and 28), the length test of the pre-trim filter
discards the record first and the division by the sequence length is
never reached, so the filter cannot fail on it. -/
theorem C6_empty_sequence_discarded_before_division
    (rec : Record) (trim min_length fAT : Nat)
    (hseq : rec.seq = []) (hpos : 0 < trim + min_length) :
    preFilter rec trim min_length fAT = Except.ok none := by
  unfold preFilter
  rw [hseq]
  have h : ((List.length ([] : Str) : Int) - (trim : Int)) < (min_length : Int) := by
    simp only [List.length_nil, Int.ofNat_zero]
    omega
  simp only [h, if_pos]

/-- C6 witness: the amended statement at the source defaults. -/
theorem C6_witness :
    ((⟨("r").toList, [], []⟩ : Record).seq = [] ∧ 0 < 42 + 28) ∧
    preFilter ⟨("r").toList, [], []⟩ 42 28 90 = Except.ok none :=
  ⟨⟨rfl, by decide⟩,
   C6_empty_sequence_discarded_before_division _ 42 28 90 rfl (by decide)⟩

/-- Every successful loop iteration of `reformatRawReads` sends exactly
one record to the kept forward sink and one to the kept reverse sink,
and counts exactly one pair, whatever is kept or discarded. -/
theorem processPair_ok_counts (cfg : RRConfig) (ra : AdaptorFn) (mc : Bool)
    (st : RState) (p : Record × Record) (st' : RState)
    (h : processPair cfg ra mc st p = Except.ok st') :
    st'.keptFw.length = st.keptFw.length + 1 ∧
    st'.keptRv.length = st.keptRv.length + 1 ∧
    st'.total_reads = st.total_reads + 1 := by
  unfold processPair at h
  dsimp only at h
  repeat' split at h
  all_goals
    first
      | exact Except.noConfusion h
      | (injection h with h'
         subst h'
         simp [List.length_append])

/-- Over any prefix of the zipped streams, a successful run of the
`reformatRawReads` loop grows both kept sinks and the pair counter by
exactly the number of pairs processed. -/
theorem reformatGo_ok_counts (cfg : RRConfig) (ra : AdaptorFn) (mc : Bool) :
    ∀ (ps : List (Record × Record)) (st st' : RState),
      reformatGo cfg ra mc st ps = Except.ok st' →
      st'.keptFw.length = st.keptFw.length + ps.length ∧
      st'.keptRv.length = st.keptRv.length + ps.length ∧
      st'.total_reads = st.total_reads + ps.length := by
  intro ps
  induction ps with
  | nil =>
    intro st st' h
    unfold reformatGo at h
    injection h with h'
    subst h'
    simp
  | cons p ps ih =>
    intro st st' h
    unfold reformatGo at h
    split at h
    · exact absurd h (by simp)
    · rename_i st1 hstep
      have h1 := processPair_ok_counts cfg ra mc st p st1 hstep
      have h2 := ih st1 st' h
      simp only [List.length_cons]
      omega

/-- C1: for every run of `reformatRawReads` over two input streams of
equal length that completes, the number of records written to the kept
forward output equals the number written to the kept reverse output and
equals the number of input pairs processed, even when every record on
one or both sides is discarded (a placeholder is emitted in place of
each discarded side).  Holds for every configuration and every behavior
of the external adaptor trimmer. -/
theorem C1_pairing_integrity (cfg : RRConfig) (ra : AdaptorFn)
    (fwRecords rwRecords : List Record) (st : RState)
    (hlen : fwRecords.length = rwRecords.length)
    (hok : reformatRawReads cfg ra fwRecords rwRecords = Except.ok st) :
    st.keptFw.length = fwRecords.length ∧
    st.keptRv.length = fwRecords.length ∧
    st.total_reads = fwRecords.length := by
  unfold reformatRawReads at hok
  have h := reformatGo_ok_counts cfg ra (iscorrectMC cfg)
    (fwRecords.zip rwRecords) initRState st hok
  have hz : (fwRecords.zip rwRecords).length = fwRecords.length := by
    rw [List.length_zip, hlen, Nat.min_self]
  simp only [initRState, List.length_nil, Nat.zero_add] at h
  omega

/-- C1 witness: a 1-pair run under the source defaults for the barcode
window but `min_length` 100, so that BOTH sides of the only pair are
discarded and replaced by placeholders; the kept outputs still hold one
record each. -/
theorem C1_witness :
    [(⟨("a").toList, ("ACGT").toList, ("IIII").toList⟩ : Record)].length =
      [(⟨("b").toList, ("ACGT").toList, ("IIII").toList⟩ : Record)].length ∧
    reformatRawReads ⟨0, 2, 90, false, 18, 27, 0, 0, 20, 100, 0, 0, 0, 0, false, false⟩
      (fun r _ _ _ => r)
      [⟨("a").toList, ("ACGT").toList, ("IIII").toList⟩]
      [⟨("b").toList, ("ACGT").toList, ("IIII").toList⟩]
      = Except.ok ⟨[⟨("a").toList, ("NNNN").toList, ("BBBB").toList⟩],
          [⟨("b").toList, ("NNNN").toList, ("BBBB").toList⟩], [], [], 1, 1, 1⟩ ∧
    ((⟨[⟨("a").toList, ("NNNN").toList, ("BBBB").toList⟩],
        [⟨("b").toList, ("NNNN").toList, ("BBBB").toList⟩], [], [], 1, 1, 1⟩ : RState).keptFw.length =
      [(⟨("a").toList, ("ACGT").toList, ("IIII").toList⟩ : Record)].length ∧
     (⟨[⟨("a").toList, ("NNNN").toList, ("BBBB").toList⟩],
        [⟨("b").toList, ("NNNN").toList, ("BBBB").toList⟩], [], [], 1, 1, 1⟩ : RState).keptRv.length =
      [(⟨("a").toList, ("ACGT").toList, ("IIII").toList⟩ : Record)].length ∧
     (⟨[⟨("a").toList, ("NNNN").toList, ("BBBB").toList⟩],
        [⟨("b").toList, ("NNNN").toList, ("BBBB").toList⟩], [], [], 1, 1, 1⟩ : RState).total_reads =
      [(⟨("a").toList, ("ACGT").toList, ("IIII").toList⟩ : Record)].length) :=
  ⟨by decide, by decide,
   C1_pairing_integrity ⟨0, 2, 90, false, 18, 27, 0, 0, 20, 100, 0, 0, 0, 0, false, false⟩
     (fun r _ _ _ => r)
     [⟨("a").toList, ("ACGT").toList, ("IIII").toList⟩]
     [⟨("b").toList, ("ACGT").toList, ("IIII").toList⟩]
     ⟨[⟨("a").toList, ("NNNN").toList, ("BBBB").toList⟩],
      [⟨("b").toList, ("NNNN").toList, ("BBBB").toList⟩], [], [], 1, 1, 1⟩
     (by decide) (by decide)⟩

/-- C8: for every pair processed by `filter_rRNA_reads` (embedded per
pair as `processRRNAPair`), a record whose header's second
whitespace-delimited token (the STAR flag) equals `"00"` is written to
the kept sink unmodified with no counter change, and a record with any
other flag token is replaced by the `getFake` sentinel placeholder,
whose sequence and quality both have the length of the record's
sequence, while that side's contamination counter is incremented by
one. -/
theorem C8_contamination_classification (r1 r2 : Record)
    (t1 f1 : Str) (rest1 : List Str) (t2 f2 : Str) (rest2 : List Str)
    (h1 : pySplitWS r1.name = t1 :: f1 :: rest1)
    (h2 : pySplitWS r2.name = t2 :: f2 :: rest2) :
    processRRNAPair (r1, r2) =
      Except.ok ((if f1 = ("00").toList then r1 else getFake r1.name r1.seq.length,
                  if f2 = ("00").toList then r2 else getFake r2.name r2.seq.length),
                 ((if f1 = ("00").toList then 0 else 1),
                  (if f2 = ("00").toList then 0 else 1))) ∧
    (getFake r1.name r1.seq.length).seq.length = r1.seq.length ∧
    (getFake r1.name r1.seq.length).qual.length = r1.seq.length ∧
    (getFake r2.name r2.seq.length).seq.length = r2.seq.length ∧
    (getFake r2.name r2.seq.length).qual.length = r2.seq.length := by
  refine ⟨?_, ?_, ?_, ?_, ?_⟩
  · unfold processRRNAPair rRNASide
    rw [h1, h2]
    by_cases hf1 : f1 = ['0', '0'] <;> by_cases hf2 : f2 = ['0', '0'] <;>
      simp [hf1, hf2]
  · simp [getFake]
  · simp [getFake]
  · simp [getFake]
  · simp [getFake]

/-- C8 witness: the spec scenario, header `"readX 01"` is contaminated
(sentinel written, counter incremented), header `"readX 00"` is passed
through unmodified. -/
theorem C8_witness :
    (pySplitWS (("readX 01").toList) =
       [("readX").toList, ("01").toList] ∧
     pySplitWS (("readX 00").toList) =
       [("readX").toList, ("00").toList]) ∧
    (processRRNAPair (⟨("readX 01").toList, ("ACGT").toList, ("IIII").toList⟩,
                      ⟨("readX 00").toList, ("ACGT").toList, ("IIII").toList⟩) =
      Except.ok ((⟨("readX 01").toList, ("NNNN").toList, ("BBBB").toList⟩,
                  ⟨("readX 00").toList, ("ACGT").toList, ("IIII").toList⟩),
                 (1, 0))) :=
  ⟨⟨by decide, by decide⟩,
   (C8_contamination_classification
      ⟨("readX 01").toList, ("ACGT").toList, ("IIII").toList⟩
      ⟨("readX 00").toList, ("ACGT").toList, ("IIII").toList⟩
      (("readX").toList) (("01").toList) []
      (("readX").toList) (("00").toList) []
      (by decide) (by decide)).1⟩

/-- The cut index computed by the scan loop never exceeds the larger of
its running best index and its position counter. -/
theorem qtiGo_le (cutoff : Int) (base : Nat) :
    ∀ (rqs : List Char) (i : Nat) (s max_qual : Int) (max_i : Nat),
      qtiGo cutoff base rqs i s max_qual max_i ≤ max max_i i := by
  intro rqs
  induction rqs with
  | nil => intro i s mq mi; simp [qtiGo]
  | cons c rest ih =>
    intro i s mq mi
    unfold qtiGo
    dsimp only
    split
    · exact Nat.le_max_left _ _
    · split
      · exact le_trans (ih (i - 1) _ _ (i - 1))
          (by simp only [Nat.max_self]
              exact le_trans (Nat.sub_le i 1) (Nat.le_max_right mi i))
      · exact le_trans (ih (i - 1) _ _ mi)
          (max_le_max (Nat.le_refl mi) (Nat.sub_le i 1))

/-- The cut index returned by `quality_trim_index` is at most the length
of the quality string. -/
theorem quality_trim_index_le (qs : Str) (cutoff : Int) (base : Nat) :
    quality_trim_index qs cutoff base ≤ qs.length := by
  have h := qtiGo_le cutoff base qs.reverse qs.length 0 0 qs.length
  simpa [quality_trim_index] using h

/-- C10 counterexample: with `min_length = 0` and a trim offset larger
than the read (here 10 > 4), `trim_quality` does NOT discard: it returns
the empty read, whose length 0 is NOT bounded by
`len(original) - trim_distance = 4 - 10 < 0`, contradicting the claimed
upper bound. -/
theorem C10_cex_min_length_zero :
    trim_quality ⟨("r").toList, ("AAAA").toList, ("IIII").toList⟩ 10 20 0 false
      = some ⟨("r").toList, [], []⟩ ∧
    ¬ (((List.length ([] : Str)) : Int) ≤
        (((("AAAA").toList).length : Int)) - (10 : Int)) := by
  refine ⟨by decide, by decide⟩

/-- C10 (amended): for every record satisfying the data-model invariant
`len(quality) = len(sequence)` and every `min_length ≥ 1`, when
`trim_quality` does not discard, the returned sequence and quality are
prefixes of the ORIGINAL inputs from index 0 (the `trim_distance`
5-prime bases are retained, bases are removed only from the 3-prime
end), they have equal length `k`, and `min_length ≤ k` and
`k ≤ len(original sequence) - trim_distance`. -/
theorem C10_trim_quality_keeps_head_of_original (rec : Record)
    (trim_distance : Nat) (min_qual : Int) (min_length : Nat) (qual64 : Bool)
    (out : Record)
    (hinv : rec.qual.length = rec.seq.length)
    (hmin : 1 ≤ min_length)
    (hok : trim_quality rec trim_distance min_qual min_length qual64 = some out) :
    out.name = rec.name ∧
    out.seq <+: rec.seq ∧
    out.qual <+: rec.qual ∧
    out.qual.length = out.seq.length ∧
    min_length ≤ out.seq.length ∧
    ((out.seq.length : Int)) ≤ ((rec.seq.length : Int)) - ((trim_distance : Int)) := by
  unfold trim_quality at hok
  dsimp only at hok
  set k := quality_trim_index (rec.qual.drop trim_distance) min_qual
    (if qual64 then 64 else 33) with hk
  have hsimp : ((rec.seq.drop trim_distance).length : Int) -
      (((rec.seq.drop trim_distance).length : Int) - (k : Int)) = (k : Int) := by
    ring
  rw [hsimp, Int.toNat_natCast] at hok
  have hkle : k ≤ rec.qual.length - trim_distance := by
    have h := quality_trim_index_le (rec.qual.drop trim_distance) min_qual
      (if qual64 then 64 else 33)
    rw [List.length_drop] at h
    exact le_of_le_of_eq h rfl
  split at hok
  · rename_i hcond
    injection hok with h'
    subst h'
    have hmk : min_length ≤ k := by exact_mod_cast hcond
    have hks : k ≤ rec.seq.length := by omega
    refine ⟨rfl, ⟨rec.seq.drop k, List.take_append_drop k rec.seq⟩,
      ⟨rec.qual.drop k, List.take_append_drop k rec.qual⟩, ?_, ?_, ?_⟩
    · simp only [List.length_take]
      rw [hinv]
    · simp only [List.length_take, min_eq_left hks]
      exact hmk
    · simp only [List.length_take, min_eq_left hks]
      omega
  · exact Option.noConfusion hok

/-- C10 witness: the amended statement on a concrete read of length 6,
trim offset 2, minimum length 3: the kept read is the 4-base prefix of
the original (the two 5-prime offset bases retained). -/
theorem C10_witness :
    ((⟨("r").toList, ("ACGTAC").toList, ("IIIII!").toList⟩ : Record).qual.length =
       (⟨("r").toList, ("ACGTAC").toList, ("IIIII!").toList⟩ : Record).seq.length ∧
     1 ≤ 3 ∧
     trim_quality ⟨("r").toList, ("ACGTAC").toList, ("IIIII!").toList⟩ 2 20 3 false
       = some ⟨("r").toList, ("ACG").toList, ("III").toList⟩) ∧
    ((⟨("r").toList, ("ACG").toList, ("III").toList⟩ : Record).name =
       (⟨("r").toList, ("ACGTAC").toList, ("IIIII!").toList⟩ : Record).name ∧
     (⟨("r").toList, ("ACG").toList, ("III").toList⟩ : Record).seq <+:
       (⟨("r").toList, ("ACGTAC").toList, ("IIIII!").toList⟩ : Record).seq ∧
     (⟨("r").toList, ("ACG").toList, ("III").toList⟩ : Record).qual <+:
       (⟨("r").toList, ("ACGTAC").toList, ("IIIII!").toList⟩ : Record).qual ∧
     (⟨("r").toList, ("ACG").toList, ("III").toList⟩ : Record).qual.length =
       (⟨("r").toList, ("ACG").toList, ("III").toList⟩ : Record).seq.length ∧
     3 ≤ (⟨("r").toList, ("ACG").toList, ("III").toList⟩ : Record).seq.length ∧
     (((⟨("r").toList, ("ACG").toList, ("III").toList⟩ : Record).seq.length : Int)) ≤
       (((⟨("r").toList, ("ACGTAC").toList, ("IIIII!").toList⟩ : Record).seq.length : Int))
         - ((2 : Nat) : Int)) :=
  ⟨⟨by decide, by decide, by decide⟩,
   C10_trim_quality_keeps_head_of_original
     ⟨("r").toList, ("ACGTAC").toList, ("IIIII!").toList⟩ 2 20 3 false
     ⟨("r").toList, ("ACG").toList, ("III").toList⟩
     (by decide) (by decide) (by decide)⟩

/-- Once the scan has stopped, further folding of the maximal-tracking
step changes nothing. -/
theorem foldMax_stopped (cutoff : Int) (base : Nat) :
    ∀ (l : List (Char × Nat)) (s best : Int) (besti : Nat),
      List.foldl (qtiScanStepMax cutoff base) (s, best, besti, true) l
        = (s, best, besti, true) := by
  intro l
  induction l with
  | nil => intro s best besti; rfl
  | cons p rest ih =>
    intro s best besti
    simp only [List.foldl_cons, qtiScanStepMax, if_pos]
    exact ih s best besti

/-- Reversed half-open ranges peel their largest element first. -/
theorem range'_reverse_succ (a k : Nat) :
    (List.range' a (k + 1)).reverse = (a + k) :: (List.range' a k).reverse := by
  rw [List.range'_concat]
  simp

/-- The loop of the source `quality_trim_index` agrees, step for step,
with the specification-style left fold of the maximal-tracking scan over
the reversed bases zipped with their indices. -/
theorem qtiGo_eq_foldMax (cutoff : Int) (base : Nat) :
    ∀ (rqs : List Char) (i : Nat) (s best : Int) (besti : Nat),
      rqs.length ≤ i →
      qtiGo cutoff base rqs i s best besti =
        (List.foldl (qtiScanStepMax cutoff base) (s, best, besti, false)
          (rqs.zip ((List.range' (i - rqs.length) rqs.length).reverse))).2.2.1 := by
  intro rqs
  induction rqs with
  | nil =>
    intro i s best besti _
    rfl
  | cons c rest ih =>
    intro i s best besti hle
    have hlen : rest.length + 1 ≤ i := by
      simpa [List.length_cons] using hle
    have hidx : i - (rest.length + 1) + rest.length = i - 1 := by omega
    have hidx2 : i - 1 - rest.length = i - (rest.length + 1) := by omega
    rw [List.length_cons, range'_reverse_succ, hidx, List.zip_cons_cons,
      List.foldl_cons]
    unfold qtiGo
    dsimp only
    simp only [qtiScanStepMax, if_neg (Bool.false_ne_true)]
    split
    · rename_i hneg
      rw [foldMax_stopped]
    · rename_i hneg
      split
      · rename_i hbest
        have h := ih (i - 1) (s + (cutoff - ((c.toNat : Int) - (base : Int))))
          (s + (cutoff - ((c.toNat : Int) - (base : Int)))) (i - 1) (by omega)
        rw [hidx2] at h
        exact h
      · rename_i hbest
        have h := ih (i - 1) (s + (cutoff - ((c.toNat : Int) - (base : Int))))
          best besti (by omega)
        rw [hidx2] at h
        exact h

/-- C4 counterexample: the claim (following the specification's "track
the minimal s") says the cut index is the index of the minimal running
sum.  On the single-character quality `"!"` (phred 0) with cutoff 20 the
source function returns 0 (it tracks the MAXIMAL sum), while the
minimal-tracking scan returns 1: the two disagree. -/
theorem C4_cex_minimal_tracking_differs :
    quality_trim_index (("!").toList) 20 33 = 0 ∧
    quality_trim_index_specMin (("!").toList) 20 33 = 1 ∧
    quality_trim_index (("!").toList) 20 33 ≠
      quality_trim_index_specMin (("!").toList) 20 33 := by
  refine ⟨by decide, by decide, by decide⟩

/-- C4 (amended): for every quality string, cutoff and ASCII offset, the
cut index of `quality_trim_index` is computed by scanning right-to-left
accumulating `cutoff - phred(base)`, stopping the instant the sum goes
negative, and tracking the MAXIMAL sum seen so far with its index as the
provisional cut point; only strict improvements update the tracked
value, so ties resolve to the earliest index reached during the scan,
yielding the longest surviving read among equal-score candidates. -/
theorem C4_quality_trim_index_is_max_scan (qs : Str) (cutoff : Int) (base : Nat) :
    quality_trim_index qs cutoff base = quality_trim_index_specMax qs cutoff base := by
  unfold quality_trim_index quality_trim_index_specMax
  have h := qtiGo_eq_foldMax cutoff base qs.reverse qs.length 0 0 qs.length
    (by rw [List.length_reverse])
  rw [List.length_reverse, Nat.sub_self, ← List.range_eq_range'] at h
  exact h

/-- Splitting peels one newline-free line (with its terminator) at a
time. -/
theorem splitLinesKeep_append (a rest : Str) :
    ('\n') ∉ a →
    splitLinesKeep (a ++ '\n' :: rest) = (a ++ ['\n']) :: splitLinesKeep rest := by
  induction a with
  | nil =>
    intro _
    simp only [List.nil_append]
    cases h : splitLinesKeep rest with
    | nil => simp [splitLinesKeep, h]
    | cons l ls => simp [splitLinesKeep, h]
  | cons c a' ih =>
    intro ha
    have hc : ¬ c = '\n' := by
      intro hcc
      exact ha (by rw [hcc]; exact List.mem_cons_self _ _)
    have ha' : ('\n') ∉ a' := fun hm => ha (List.mem_cons_of_mem _ hm)
    simp only [List.cons_append, splitLinesKeep, List.append_eq]
    rw [ih ha']
    simp [hc]

/-- An exhausted stream yields no further records, whatever the fuel. -/
theorem readfqGo_none_nil : ∀ f : Nat, readfqGo f none [] = [] := by
  intro f
  cases f with
  | zero => rfl
  | succ n => simp [readfqGo, findHeader]

/-- Dropping the trailing newline of a non-empty physical line. -/
theorem dropLast_cons_append_single (c : Char) (a : Str) (x : Char) :
    (c :: (a ++ [x])).dropLast = c :: a := by
  rw [show c :: (a ++ [x]) = (c :: a) ++ [x] by simp]
  exact List.dropLast_concat

/-- Evaluation of the `readfq` loop on the four serialized lines of one
well-formed fastq record: exactly that record is yielded. -/
theorem readfqGo_single_record (fuel : Nat) (name : Str) (s0 : Char)
    (srest : Str) (qual : Str)
    (hs0 : ¬ s0 ∈ (['@', '+', '>'] : List Char))
    (hlen : qual.length = (s0 :: srest).length) :
    readfqGo (fuel + 1) none
      [('@' :: name) ++ ['\n'], (s0 :: srest) ++ ['\n'], ['+', '\n'], qual ++ ['\n']]
      = [⟨name, s0 :: srest, some qual⟩] := by
  simp [readfqGo, findHeader, headIn, readSeqLines, readQualLines,
    readfqGo_none_nil, hs0, hlen, List.dropLast_concat,
    dropLast_cons_append_single]

/-- C9: for every record with newline-free name, nucleotide sequence
(characters among A, C, G, T, N), newline-free quality, both sequence
and quality non-empty and of equal length, serializing with `writefq`
and parsing the text back with `readfq` yields exactly one record equal
to the original `(id, sequence, quality)` triple. -/
theorem C9_writefq_readfq_roundtrip (name seq qual : Str)
    (hname : ('\n') ∉ name)
    (hseq : ∀ c ∈ seq, c ∈ (("ACGTN").toList))
    (hqual : ('\n') ∉ qual)
    (hseqne : seq ≠ [])
    (hqualne : qual ≠ [])
    (hlen : qual.length = seq.length) :
    readfq (writefq ⟨name, seq, qual⟩) = [⟨name, seq, some qual⟩] := by
  obtain ⟨s0, srest, rfl⟩ : ∃ s0 srest, seq = s0 :: srest := by
    cases seq with
    | nil => exact absurd rfl hseqne
    | cons a b => exact ⟨a, b, rfl⟩
  have hs0mem : s0 ∈ (['A', 'C', 'G', 'T', 'N'] : List Char) :=
    hseq s0 (List.mem_cons_self _ _)
  have hs0 : ¬ s0 ∈ (['@', '+', '>'] : List Char) := by
    simp only [List.mem_cons, List.not_mem_nil, or_false] at hs0mem
    rcases hs0mem with rfl | rfl | rfl | rfl | rfl <;> decide
  have hseqnl : ('\n') ∉ (s0 :: srest) := by
    intro hm
    have h2 : ('\n') ∈ (['A', 'C', 'G', 'T', 'N'] : List Char) := hseq _ hm
    exact absurd h2 (by decide)
  have hlines : splitLinesKeep (writefq ⟨name, s0 :: srest, qual⟩) =
      [('@' :: name) ++ ['\n'], (s0 :: srest) ++ ['\n'], ['+', '\n'],
       qual ++ ['\n']] := by
    unfold writefq
    dsimp only
    rw [show (('@' :: name) ++ ['\n'] ++ (s0 :: srest) ++ ['\n'] ++ ['+'] ++ ['\n'] ++
          qual ++ ['\n'] : Str)
        = ('@' :: name) ++ '\n' ::
            ((s0 :: srest) ++ '\n' :: ('+' :: '\n' :: (qual ++ ['\n'])))
      from by simp]
    rw [splitLinesKeep_append _ _ (by simp [hname])]
    rw [splitLinesKeep_append _ _ hseqnl]
    rw [show (('+' : Char) :: '\n' :: (qual ++ ['\n']) : Str)
        = ['+'] ++ '\n' :: (qual ++ ['\n']) from rfl]
    rw [splitLinesKeep_append _ _ (by decide)]
    rw [splitLinesKeep_append _ _ hqual]
    simp [splitLinesKeep]
  unfold readfq
  dsimp only
  rw [hlines]
  exact readfqGo_single_record _ name s0 srest qual hs0 hlen

/-- C9 witness: the round-trip on a concrete record. -/
theorem C9_witness :
    (('\n') ∉ (("read1").toList) ∧
     (∀ c ∈ (("ACGT").toList), c ∈ (("ACGTN").toList)) ∧
     ('\n') ∉ (("IIII").toList) ∧
     (("ACGT").toList) ≠ ([] : Str) ∧
     (("IIII").toList) ≠ ([] : Str) ∧
     (("IIII").toList).length = (("ACGT").toList).length) ∧
    readfq (writefq ⟨("read1").toList, ("ACGT").toList, ("IIII").toList⟩)
      = [⟨("read1").toList, ("ACGT").toList, some (("IIII").toList)⟩] :=
  ⟨⟨by decide, by decide, by decide, by decide, by decide, by decide⟩,
   C9_writefq_readfq_roundtrip (("read1").toList) (("ACGT").toList)
     (("IIII").toList) (by decide) (by decide) (by decide) (by decide)
     (by decide) (by decide)⟩
